import Mathlib

/-!
# Verification of the CellMLAnalyser unit algebra (add_milestone3.py)

This file gives a shallow embedding of the unit-decomposition and
variable-to-baseline mapping logic of `add_milestone3.py` and proves
properties of it.

Modelling choices:
* Python floats used for exponents and multipliers are modelled as exact
  rationals (`ℚ`); the decomposition only multiplies and adds them.
* A Python dict of unit definitions is modelled as an association list
  (`List (String × _)`) with first-match lookup; the parser produces unique
  keys, so first-match agrees with dict semantics, and insertion order is
  kept because the mapping engine scans baselines in insertion order.
* The Python `set` of visited names is modelled as a `List String`
  (only membership is used); `visited.copy()` passed to a recursive call
  corresponds to consing the current name onto the list.
* The recursion of `break_down_unit_recursive` is modelled with an explicit
  fuel parameter (`breakDownF`); a fuel of (number of registry entries + 1)
  is proven sufficient (see the termination theorem for C6), and the
  fuel-free wrapper `break_down_unit_recursive` uses exactly that fuel.
-/

/-- One term of a unit definition: the Python dict
`{'unit': ..., 'exponent': ..., 'multiplier': ..., 'prefix': ...}`.
The field `pfx` models the `'prefix'` key (`prefix` is a Lean keyword). -/
structure UnitTerm where
  unit : String
  exponent : ℚ
  multiplier : ℚ
  pfx : String
deriving DecidableEq

/-- The registry `units_dict` built by `parse_cellml_units`: unit name to its
`'components'` list.  The `'element'` entry (raw XML node) is I/O glue and is
not modelled. -/
abbrev UnitsDict := List (String × List UnitTerm)

/-- First-match association-list lookup, modelling Python dict indexing
(`units_dict[name]`) and `dict.get` (keys produced by the parsers are
unique, so first match is the dict entry). -/
def lookupStr {α : Type} : List (String × α) → String → Option α
  | [], _ => none
  | (n, v) :: rest, k => if n = k then some v else lookupStr rest k

/-- Merging one combined sub-component into the accumulating `result` list
(lines 112-128 of the source): the first entry with the same `unit` gets
`exponent += e` and `multiplier *= m` (its prefix string is kept: the source
comment says "Don't combine prefixes"); otherwise a fresh entry is appended. -/
def addEntry : List UnitTerm → String → ℚ → ℚ → String → List UnitTerm
  | [], u, e, m, p => [⟨u, e, m, p⟩]
  | r :: rs, u, e, m, p =>
    if r.unit = u then ⟨r.unit, r.exponent + e, r.multiplier * m, r.pfx⟩ :: rs
    else r :: addEntry rs u e m p

/-- The inner `for sub_comp in sub_components` loop (lines 102-128):
each sub-component's exponent is multiplied by the component's exponent,
its multiplier by the component's multiplier, its prefix replaced by the
component's prefix when that is non-empty (Python truthiness of strings),
and the result merged into the accumulator. -/
def combineSub (comp : UnitTerm) : List UnitTerm → List UnitTerm → List UnitTerm
  | [], result => result
  | sc :: rest, result =>
    combineSub comp rest
      (addEntry result sc.unit (sc.exponent * comp.exponent)
        (sc.multiplier * comp.multiplier)
        (if comp.pfx ≠ "" then comp.pfx else sc.pfx))

/-- One step of the `for component in unit_def['components']` loop, with the
recursive decomposition of the referenced unit abstracted as `f`.
`none` propagates fuel exhaustion of the model (the Python original has no
such case; sufficiency of the wrapper's fuel is proven below). -/
def bdStep (f : String → Option (List UnitTerm)) (acc : Option (List UnitTerm))
    (c : UnitTerm) : Option (List UnitTerm) :=
  match acc with
  | none => none
  | some result =>
    match f c.unit with
    | none => none
    | some subs => some (combineSub c subs result)

/-- Fuel-indexed model of `break_down_unit_recursive(unit_name, units_dict,
visited)` (lines 70-130).  If the name is in `visited` the function returns
the empty list (line 77); if the name is not a registry key it returns a
single leaf term with exponent 1, multiplier 1 and empty prefix
(lines 82-88); otherwise it folds the component loop, each recursive call
receiving `visited` extended by the current name (the `visited.copy()` of a
set that only ever had the current name added). -/
def breakDownF : Nat → String → UnitsDict → List String → Option (List UnitTerm)
  | 0, _, _, _ => none
  | fuel + 1, unit_name, units_dict, visited =>
    if unit_name ∈ visited then some []
    else
      match lookupStr units_dict unit_name with
      | none => some [⟨unit_name, 1, 1, ""⟩]
      | some comps =>
        comps.foldl
          (bdStep (fun n => breakDownF fuel n units_dict (unit_name :: visited)))
          (some [])

/-- Top-level `break_down_unit_recursive(unit_name, units_dict)` with the
default `visited=None` (i.e. empty).  The fuel `units_dict.length + 1` is
proven sufficient below, so the `getD` default is never taken. -/
def break_down_unit_recursive (unit_name : String) (units_dict : UnitsDict) :
    List UnitTerm :=
  (breakDownF (units_dict.length + 1) unit_name units_dict []).getD []

/-- The zero-exponent filter applied by `create_expanded_cellml_file` when it
emits the expanded unit's children (lines 176-179: components with
`exponent == 0` are skipped). -/
def emitted_components (broken_down : List UnitTerm) : List UnitTerm :=
  broken_down.filter (fun c => decide (c.exponent ≠ 0))

/-- Number of registry keys not yet visited; the decreasing measure of the
Python recursion, used to state and prove termination. -/
def remainingKeys (units_dict : UnitsDict) (visited : List String) : Nat :=
  ((units_dict.map Prod.fst).dedup.filter (fun k => decide (k ∉ visited))).length

/-! ## Helper lemmas about the accumulator operations -/

theorem addEntry_forall (P : String → Prop) :
    ∀ (res : List UnitTerm) (u : String) (e m : ℚ) (p : String),
      (∀ t ∈ res, P t.unit) → P u → ∀ t ∈ addEntry res u e m p, P t.unit := by
  intro res
  induction res with
  | nil =>
    intro u e m p _ hu t ht
    simp only [addEntry, List.mem_singleton] at ht
    subst ht; exact hu
  | cons r rs ih =>
    intro u e m p hres hu t ht
    simp only [addEntry] at ht
    by_cases hr : r.unit = u
    · rw [if_pos hr] at ht
      rcases List.mem_cons.mp ht with h | h
      · subst h; exact hres r (List.mem_cons_self _ _)
      · exact hres t (List.mem_cons_of_mem _ h)
    · rw [if_neg hr] at ht
      rcases List.mem_cons.mp ht with h | h
      · rw [h]; exact hres r (List.mem_cons_self _ _)
      · exact ih u e m p (fun t' ht' => hres t' (List.mem_cons_of_mem _ ht')) hu t h

theorem combineSub_forall (P : String → Prop) (c : UnitTerm) :
    ∀ (subs res : List UnitTerm),
      (∀ t ∈ res, P t.unit) → (∀ s ∈ subs, P s.unit) →
      ∀ t ∈ combineSub c subs res, P t.unit := by
  intro subs
  induction subs with
  | nil =>
    intro res hres _ t ht
    simpa [combineSub] using hres t ht
  | cons sc rest ih =>
    intro res hres hsubs t ht
    simp only [combineSub] at ht
    refine ih _ ?_ (fun s hs => hsubs s (List.mem_cons_of_mem _ hs)) t ht
    exact addEntry_forall P res sc.unit _ _ _ hres (hsubs sc (List.mem_cons_self _ _))

theorem bdFold_none (f : String → Option (List UnitTerm)) :
    ∀ comps : List UnitTerm, comps.foldl (bdStep f) none = none := by
  intro comps
  induction comps with
  | nil => rfl
  | cons c cs ih => simpa [bdStep] using ih

theorem bdFold_isSome (f : String → Option (List UnitTerm)) :
    ∀ (comps : List UnitTerm) (acc : List UnitTerm),
      (∀ c ∈ comps, (f c.unit).isSome) →
      (comps.foldl (bdStep f) (some acc)).isSome := by
  intro comps
  induction comps with
  | nil =>
    intro acc _
    simp
  | cons c cs ih =>
    intro acc h
    have hc := h c (List.mem_cons_self _ _)
    rcases Option.isSome_iff_exists.mp hc with ⟨subs, hsubs⟩
    simp only [List.foldl_cons, bdStep, hsubs]
    exact ih _ (fun c' hc' => h c' (List.mem_cons_of_mem _ hc'))

theorem bdFold_congr (f g : String → Option (List UnitTerm)) :
    ∀ (comps : List UnitTerm) (acc : Option (List UnitTerm)),
      (∀ c ∈ comps, f c.unit = g c.unit) →
      comps.foldl (bdStep f) acc = comps.foldl (bdStep g) acc := by
  intro comps
  induction comps with
  | nil => intro acc _; rfl
  | cons c cs ih =>
    intro acc h
    have hc := h c (List.mem_cons_self _ _)
    have hstep : bdStep f acc c = bdStep g acc c := by
      cases acc <;> simp [bdStep, hc]
    simp only [List.foldl_cons, hstep]
    exact ih _ (fun c' hc' => h c' (List.mem_cons_of_mem _ hc'))

theorem bdFold_units (P : String → Prop) (f : String → Option (List UnitTerm)) :
    ∀ (comps : List UnitTerm) (acc res : List UnitTerm),
      (∀ c ∈ comps, ∀ subs, f c.unit = some subs → ∀ t ∈ subs, P t.unit) →
      (∀ t ∈ acc, P t.unit) →
      comps.foldl (bdStep f) (some acc) = some res →
      ∀ t ∈ res, P t.unit := by
  intro comps
  induction comps with
  | nil =>
    intro acc res _ hacc heq
    simp only [List.foldl_nil, Option.some.injEq] at heq
    subst heq; exact hacc
  | cons c cs ih =>
    intro acc res hf hacc heq
    simp only [List.foldl_cons] at heq
    cases hfc : f c.unit with
    | none =>
      rw [show bdStep f (some acc) c = none by simp [bdStep, hfc], bdFold_none] at heq
      exact absurd heq (by simp)
    | some subs =>
      rw [show bdStep f (some acc) c = some (combineSub c subs acc) by
        simp [bdStep, hfc]] at heq
      exact ih _ res (fun c' hc' => hf c' (List.mem_cons_of_mem _ hc'))
        (combineSub_forall P c subs acc hacc (hf c (List.mem_cons_self _ _) subs hfc)) heq

/-! ## Lookup lemmas -/

theorem lookupStr_eq_none_iff {α : Type} :
    ∀ (l : List (String × α)) (k : String),
      lookupStr l k = none ↔ k ∉ l.map Prod.fst := by
  intro l
  induction l with
  | nil => intro k; simp [lookupStr]
  | cons p rest ih =>
    intro k
    by_cases h : p.1 = k
    · simp [lookupStr, h]
    · simp [lookupStr, h, ih k, Ne.symm h]

theorem lookupStr_some_mem {α : Type} {l : List (String × α)} {k : String} {v : α}
    (h : lookupStr l k = some v) : k ∈ l.map Prod.fst := by
  by_contra hk
  rw [← lookupStr_eq_none_iff l k] at hk
  rw [h] at hk
  exact Option.noConfusion hk

/-! ## Termination of the decomposition recursion -/

theorem length_filter_lt_of_mem {α : Type} (q : α → Bool) :
    ∀ (l : List α) (a : α), a ∈ l → q a = false → (l.filter q).length < l.length := by
  intro l
  induction l with
  | nil => intro a ha _; cases ha
  | cons x xs ih =>
    intro a ha hq
    rcases List.mem_cons.mp ha with h | h
    · subst h
      simp only [List.filter_cons, hq, Bool.false_eq_true, if_false, List.length_cons]
      exact Nat.lt_succ_of_le (List.length_filter_le _ _)
    · cases hx : q x
      · simp only [List.filter_cons, hx, Bool.false_eq_true, if_false, List.length_cons]
        exact Nat.lt_succ_of_lt (ih a h hq)
      · simp only [List.filter_cons, hx, if_true, List.length_cons]
        exact Nat.succ_lt_succ (ih a h hq)

theorem remainingKeys_cons_lt (units_dict : UnitsDict) (u : String) (visited : List String)
    (hu : u ∈ units_dict.map Prod.fst) (hv : u ∉ visited) :
    remainingKeys units_dict (u :: visited) < remainingKeys units_dict visited := by
  unfold remainingKeys
  have hfun : (fun k => decide (k ∉ u :: visited))
      = fun k => decide (k ≠ u) && decide (k ∉ visited) := by
    funext k
    simp [List.mem_cons, not_or]
  rw [hfun, ← List.filter_filter]
  exact length_filter_lt_of_mem _ _ u
    (List.mem_filter.mpr ⟨List.mem_dedup.mpr hu, by simp [hv]⟩)
    (by simp)

theorem breakDownF_isSome (units_dict : UnitsDict) :
    ∀ (fuel : Nat) (u : String) (visited : List String),
      remainingKeys units_dict visited < fuel →
      (breakDownF fuel u units_dict visited).isSome := by
  intro fuel
  induction fuel with
  | zero => intro u visited h; exact absurd h (Nat.not_lt_zero _)
  | succ f ih =>
    intro u visited h
    by_cases hv : u ∈ visited
    · simp [breakDownF, hv]
    · cases hl : lookupStr units_dict u with
      | none => simp [breakDownF, hv, hl]
      | some comps =>
        have hlt : remainingKeys units_dict (u :: visited) < f := by
          have := remainingKeys_cons_lt units_dict u visited (lookupStr_some_mem hl) hv
          omega
        rw [show breakDownF (f + 1) u units_dict visited
            = comps.foldl (bdStep fun n => breakDownF f n units_dict (u :: visited))
              (some []) by simp [breakDownF, hv, hl]]
        exact bdFold_isSome _ comps [] (fun c _ => ih c.unit (u :: visited) hlt)

theorem breakDownF_succ_eq (units_dict : UnitsDict) :
    ∀ (fuel : Nat) (u : String) (visited : List String),
      remainingKeys units_dict visited < fuel →
      breakDownF (fuel + 1) u units_dict visited = breakDownF fuel u units_dict visited := by
  intro fuel
  induction fuel with
  | zero => intro u visited h; exact absurd h (Nat.not_lt_zero _)
  | succ f ih =>
    intro u visited h
    by_cases hv : u ∈ visited
    · simp [breakDownF, hv]
    · cases hl : lookupStr units_dict u with
      | none => simp [breakDownF, hv, hl]
      | some comps =>
        have hlt : remainingKeys units_dict (u :: visited) < f := by
          have := remainingKeys_cons_lt units_dict u visited (lookupStr_some_mem hl) hv
          omega
        rw [show breakDownF (f + 1 + 1) u units_dict visited
            = comps.foldl (bdStep fun n => breakDownF (f + 1) n units_dict (u :: visited))
              (some []) by simp [breakDownF, hv, hl]]
        rw [show breakDownF (f + 1) u units_dict visited
            = comps.foldl (bdStep fun n => breakDownF f n units_dict (u :: visited))
              (some []) by simp [breakDownF, hv, hl]]
        exact bdFold_congr _ _ comps (some [])
          (fun c _ => ih c.unit (u :: visited) hlt)

theorem breakDownF_stable (units_dict : UnitsDict) (u : String) (visited : List String)
    {fuel fuel' : Nat} (h : remainingKeys units_dict visited < fuel) (hle : fuel ≤ fuel') :
    breakDownF fuel' u units_dict visited = breakDownF fuel u units_dict visited := by
  induction fuel', hle using Nat.le_induction with
  | base => rfl
  | succ n hn ih =>
    rw [breakDownF_succ_eq units_dict n u visited (lt_of_lt_of_le h hn), ih]

theorem remainingKeys_le_length (units_dict : UnitsDict) (visited : List String) :
    remainingKeys units_dict visited ≤ units_dict.length := by
  unfold remainingKeys
  calc ((units_dict.map Prod.fst).dedup.filter (fun k => decide (k ∉ visited))).length
      ≤ (units_dict.map Prod.fst).dedup.length := List.length_filter_le _ _
    _ ≤ (units_dict.map Prod.fst).length := (List.dedup_sublist _).length_le
    _ = units_dict.length := List.length_map _ _

theorem break_down_eq_some (unit_name : String) (units_dict : UnitsDict) :
    breakDownF (units_dict.length + 1) unit_name units_dict []
      = some (break_down_unit_recursive unit_name units_dict) := by
  have h : remainingKeys units_dict [] < units_dict.length + 1 :=
    Nat.lt_succ_of_le (remainingKeys_le_length units_dict [])
  have hs := breakDownF_isSome units_dict (units_dict.length + 1) unit_name [] h
  unfold break_down_unit_recursive
  cases heq : breakDownF (units_dict.length + 1) unit_name units_dict [] with
  | none => rw [heq] at hs; exact absurd hs (by simp)
  | some res => simp

/-! ## The decomposition result only mentions names absent from the registry -/

theorem breakDownF_base_units (units_dict : UnitsDict) :
    ∀ (fuel : Nat) (u : String) (visited : List String) (res : List UnitTerm),
      breakDownF fuel u units_dict visited = some res →
      ∀ t ∈ res, lookupStr units_dict t.unit = none := by
  intro fuel
  induction fuel with
  | zero => intro u visited res h; exact absurd h (by simp [breakDownF])
  | succ f ih =>
    intro u visited res h
    by_cases hv : u ∈ visited
    · rw [show breakDownF (f + 1) u units_dict visited = some [] by
        simp [breakDownF, hv]] at h
      cases h; intro t ht; cases ht
    · cases hl : lookupStr units_dict u with
      | none =>
        rw [show breakDownF (f + 1) u units_dict visited = some [⟨u, 1, 1, ""⟩] by
          simp [breakDownF, hv, hl]] at h
        cases h
        intro t ht
        rcases List.mem_singleton.mp ht with h'
        rw [h']
        exact hl
      | some comps =>
        rw [show breakDownF (f + 1) u units_dict visited
            = comps.foldl (bdStep fun n => breakDownF f n units_dict (u :: visited))
              (some []) by simp [breakDownF, hv, hl]] at h
        exact bdFold_units (fun s => lookupStr units_dict s = none) _ comps [] res
          (fun c _ subs hsubs => ih c.unit (u :: visited) subs hsubs)
          (by intro t ht; cases ht) h

/-! ## Decomposition of a definition made purely of base-unit terms -/

theorem addEntry_of_not_mem :
    ∀ (res : List UnitTerm) (u : String) (e m : ℚ) (p : String),
      u ∉ res.map UnitTerm.unit → addEntry res u e m p = res ++ [⟨u, e, m, p⟩] := by
  intro res
  induction res with
  | nil => intro u e m p _; rfl
  | cons r rs ih =>
    intro u e m p hu
    have hr : ¬ r.unit = u := by
      intro h
      exact hu (by simp [← h])
    simp only [addEntry, if_neg hr, List.cons_append]
    rw [ih u e m p (fun h => hu (by
      simp only [List.map_cons, List.mem_cons]
      exact Or.inr h))]

theorem combineSub_leaf (c : UnitTerm) (res : List UnitTerm) :
    combineSub c [⟨c.unit, 1, 1, ""⟩] res
      = addEntry res c.unit c.exponent c.multiplier c.pfx := by
  simp only [combineSub]
  rw [one_mul, one_mul]
  by_cases h : c.pfx = "" <;> simp [h]

theorem bdFold_pure_base (f : String → Option (List UnitTerm)) :
    ∀ (cs res : List UnitTerm),
      (∀ c ∈ cs, f c.unit = some [⟨c.unit, 1, 1, ""⟩]) →
      (cs.map UnitTerm.unit).Nodup →
      (∀ c ∈ cs, c.unit ∉ res.map UnitTerm.unit) →
      cs.foldl (bdStep f) (some res) = some (res ++ cs) := by
  intro cs
  induction cs with
  | nil => intro res _ _ _; simp
  | cons c cs ih =>
    intro res hf hnd hdisj
    have hfc := hf c (List.mem_cons_self _ _)
    have hhead : c.unit ∉ cs.map UnitTerm.unit := by
      simp only [List.map_cons, List.nodup_cons] at hnd; exact hnd.1
    have hnd' : (cs.map UnitTerm.unit).Nodup := by
      simp only [List.map_cons, List.nodup_cons] at hnd; exact hnd.2
    have hstep : bdStep f (some res) c = some (res ++ [c]) := by
      simp only [bdStep, hfc, combineSub_leaf]
      rw [addEntry_of_not_mem res c.unit _ _ _ (hdisj c (List.mem_cons_self _ _))]
    have hdisj' : ∀ c' ∈ cs, c'.unit ∉ (res ++ [c]).map UnitTerm.unit := by
      intro c' hc'
      simp only [List.map_append, List.mem_append, List.map_cons, List.map_nil,
        List.mem_singleton, not_or]
      refine ⟨hdisj c' (List.mem_cons_of_mem _ hc'), ?_⟩
      intro h
      exact hhead (h ▸ List.mem_map_of_mem UnitTerm.unit hc')
    rw [List.foldl_cons, hstep,
      ih (res ++ [c]) (fun c' hc' => hf c' (List.mem_cons_of_mem _ hc')) hnd' hdisj']
    simp

/-!
## The ontology mapping engine (`map_variable_units_to_opb`, lines 319-458)

`libcellml` units objects are opaque handles here: the type parameter `β`
stands for a units object, `compat` for `libcellml.Units.compatible`
(an exception inside the compatibility loop is skipped by the source's
bare `except: continue`, which behaves exactly like a `False` result, so
`compat` is modelled as total), and `dz` for the object built by
`libcellml.Units("dimensionless")` (whose construction is modelled as
non-failing; the source's `except` fallback for a failing constructor is a
Python-runtime path with no counterpart in a pure model).
A variable's declared unit (`var.units()`) is a name or absent;
an absent unit is printed and treated as "dimensionless" (line 338).
-/

/-- The `SI_BASE_UNITS_OPB` table (lines 15-22), in source order. -/
def SI_BASE_UNITS_OPB : List (String × String) :=
  [("ampere", "OPB_00318"),
   ("kelvin", "OPB_00293"),
   ("kilogram", "OPB_01226"),
   ("metre", "OPB_00269"),
   ("mole", "OPB_00425"),
   ("second", "OPB_00402")]

/-- A model variable: its name and its declared unit name (`none` models a
null/absent units object, handled as "dimensionless" by line 338). -/
structure ModelVariable where
  name : String
  unitName : Option String
deriving DecidableEq

/-- One record of `mapping_details` (the `"variable"`, `"unit"`,
`"mapped_to"`, `"opb_code"` keys); `var` models the `"variable"` key
(`variable` is a Lean keyword).  `opb_code` is `none` when the source
stores Python `None`. -/
structure MappingRecord where
  var : String
  unit : String
  mapped_to : String
  opb_code : Option (List String)
deriving DecidableEq

/-- One record of `unmapped_details` (the `"variable"`, `"unit"`,
`"reason"` keys). -/
structure UnmappedRecord where
  var : String
  unit : String
  reason : String
deriving DecidableEq

/-- Classification of a single variable: exactly one record is produced,
either a mapping record or an unmapped record. -/
inductive VarClass where
  | mapped : MappingRecord → VarClass
  | unmapped : UnmappedRecord → VarClass
deriving DecidableEq

/-- Resolution of a unit name to a units object (lines 409-417): the model's
own units are searched first (`model_unit_names` membership then the first
index with that name); only if the name is not a model unit is the baseline
dictionary consulted. -/
def resolveUnitsObj {β : Type} (modelUnits baseline_units : List (String × β))
    (unit_name : String) : Option β :=
  if unit_name ∈ modelUnits.map Prod.fst then lookupStr modelUnits unit_name
  else if unit_name ∈ baseline_units.map Prod.fst then lookupStr baseline_units unit_name
  else none

/-- Per-variable classification logic of `map_variable_units_to_opb`
(lines 331-456): dimensionless handling first (lines 342-393), then the SI
base-unit fast path (lines 395-407), then resolution (lines 409-427), then
the first-match compatibility scan over the baseline dictionary in
insertion order (lines 429-456). -/
def classifyVariable {β : Type} (compat : β → β → Bool) (dz : β)
    (modelUnits baseline_units : List (String × β))
    (opb_map : List (String × List String)) (v : ModelVariable) : VarClass :=
  let unit_name := v.unitName.getD "dimensionless"
  if unit_name = "dimensionless" then
    match baseline_units.find? (fun bu => compat dz bu.2) with
    | some bu => .mapped ⟨v.name, "dimensionless", bu.1, lookupStr opb_map bu.1⟩
    | none => .mapped ⟨v.name, "dimensionless", "dimensionless", none⟩
  else
    match lookupStr SI_BASE_UNITS_OPB unit_name with
    | some code => .mapped ⟨v.name, unit_name, unit_name, some [code]⟩
    | none =>
      match resolveUnitsObj modelUnits baseline_units unit_name with
      | none => .unmapped ⟨v.name, unit_name, "Unit not found"⟩
      | some uo =>
        match baseline_units.find? (fun bu => compat uo bu.2) with
        | some bu => .mapped ⟨v.name, unit_name, bu.1, lookupStr opb_map bu.1⟩
        | none => .unmapped ⟨v.name, unit_name, "No compatible baseline unit found"⟩

/-- The running state of `map_variable_units_to_opb`: the `mapped` and
`total` counters and the two detail lists (in append order). -/
structure MapResult where
  mapped : Nat
  total : Nat
  mapping_details : List MappingRecord
  unmapped_details : List UnmappedRecord
deriving DecidableEq

/-- Processing one variable: `total` is incremented exactly once on every
path of the source loop body, `mapped` exactly on the paths that append a
mapping record. -/
def stepVariable {β : Type} (compat : β → β → Bool) (dz : β)
    (modelUnits baseline_units : List (String × β))
    (opb_map : List (String × List String)) (st : MapResult) (v : ModelVariable) :
    MapResult :=
  match classifyVariable compat dz modelUnits baseline_units opb_map v with
  | .mapped r =>
    { st with
      mapped := st.mapped + 1
      total := st.total + 1
      mapping_details := st.mapping_details ++ [r] }
  | .unmapped r =>
    { st with
      total := st.total + 1
      unmapped_details := st.unmapped_details ++ [r] }

/-- `map_variable_units_to_opb(model, baseline_units, opb_map)`: the nested
loops over the model's components and each component's variables, starting
from zero counters and empty detail lists.  The model is given as its list
of components (each a list of variables) plus its own units dictionary. -/
def map_variable_units_to_opb {β : Type} (compat : β → β → Bool) (dz : β)
    (components : List (List ModelVariable))
    (modelUnits baseline_units : List (String × β))
    (opb_map : List (String × List String)) : MapResult :=
  components.foldl
    (fun st comp =>
      comp.foldl (stepVariable compat dz modelUnits baseline_units opb_map) st)
    ⟨0, 0, [], []⟩

/-! ## Claims -/

/-- C1 counterexample: with "m" already in the visited set, the cycle break
of `break_down_unit_recursive` returns the empty list (line 77), not "m" as
its own leaf term with exponent 1 as the claim states. -/
theorem C1_counterexample :
    breakDownF 1 "m" [] ["m"] = some []
    ∧ breakDownF 1 "m" [] ["m"] ≠ some [⟨"m", 1, 1, ""⟩] := by
  decide

/-- C1 (amended): for every unit name, registry, visited set containing the
name, and positive fuel, the recursive decomposition returns the empty term
list — the cycle break stops recursion without raising an error; it does
not expand further, and it does not return the unit as a leaf term. -/
theorem C1_cycle_break_empty (unit_name : String) (units_dict : UnitsDict)
    (visited : List String) (fuel : Nat) (h : unit_name ∈ visited) :
    breakDownF (fuel + 1) unit_name units_dict visited = some [] := by
  simp [breakDownF, h]

theorem C1_cycle_break_empty_witness :
    "s" ∈ ["s", "metre"]
    ∧ breakDownF 3 "s" [("x", [])] ["s", "metre"] = some [] :=
  ⟨by decide, C1_cycle_break_empty "s" [("x", [])] ["s", "metre"] 2 (by decide)⟩

/-- C2: every entry of a decomposition result names a unit absent from the
registry (the result is expressed only in base-unit names), and a name that
does not resolve decomposes to exactly the single term {itself: exponent 1}
with multiplier 1. -/
theorem C2_fully_reduced (unit_name : String) (units_dict : UnitsDict) :
    (∀ t ∈ break_down_unit_recursive unit_name units_dict,
        lookupStr units_dict t.unit = none)
    ∧ (lookupStr units_dict unit_name = none →
        break_down_unit_recursive unit_name units_dict
          = [⟨unit_name, 1, 1, ""⟩]) := by
  constructor
  · intro t ht
    exact breakDownF_base_units units_dict (units_dict.length + 1) unit_name [] _
      (break_down_eq_some unit_name units_dict) t ht
  · intro h
    unfold break_down_unit_recursive
    simp [breakDownF, h]

theorem C2_fully_reduced_witness :
    lookupStr ([("s", [⟨"second", 1, 1, ""⟩])] : UnitsDict) "m" = none
    ∧ break_down_unit_recursive "m" ([("s", [⟨"second", 1, 1, ""⟩])] : UnitsDict)
        = [⟨"m", 1, 1, ""⟩]
    ∧ lookupStr ([("s", [⟨"second", 1, 1, ""⟩])] : UnitsDict)
        (UnitTerm.mk "m" 1 1 "").unit = none :=
  ⟨by decide,
   (C2_fully_reduced "m" ([("s", [⟨"second", 1, 1, ""⟩])] : UnitsDict)).2
     (by decide),
   (C2_fully_reduced "m" ([("s", [⟨"second", 1, 1, ""⟩])] : UnitsDict)).1
     ⟨"m", 1, 1, ""⟩ (by decide)⟩

/-- C3 (code behaviour at the failing input): decomposing "km", defined as a
single kilo-prefixed metre term, yields multiplier 1 with the SI prefix
carried only as the string "kilo" — the prefix's power-of-ten factor
(kilo = ×1000) is never multiplied into any scale factor, contradicting the
claim (the spec's own §9 flags the prefix-string tracking as a bug). -/
theorem C3_prefix_not_folded :
    break_down_unit_recursive "km" [("km", [⟨"metre", 1, 1, "kilo"⟩])]
      = [⟨"metre", 1, 1, "kilo"⟩]
    ∧ (break_down_unit_recursive "km" [("km", [⟨"metre", 1, 1, "kilo"⟩])]).map
        UnitTerm.multiplier ≠ [1000] := by
  have h1 : break_down_unit_recursive "km" [("km", [⟨"metre", 1, 1, "kilo"⟩])]
      = [⟨"metre", 1, 1, "kilo"⟩] := by
    simp [break_down_unit_recursive, breakDownF, bdStep, combineSub, addEntry,
      lookupStr]
  refine ⟨h1, ?_⟩
  rw [h1]
  decide

/-- C4 counterexample: a unit defined as metre·metre⁻¹ decomposes to a
single zero-exponent entry, not to the empty form — zero-exponent entries
are not removed by `break_down_unit_recursive` before it returns. -/
theorem C4_counterexample :
    break_down_unit_recursive "m_per_m"
        [("m_per_m", [⟨"metre", 1, 1, ""⟩, ⟨"metre", -1, 1, ""⟩])]
      = [⟨"metre", 0, 1, ""⟩]
    ∧ break_down_unit_recursive "m_per_m"
        [("m_per_m", [⟨"metre", 1, 1, ""⟩, ⟨"metre", -1, 1, ""⟩])] ≠ [] := by
  have h1 : break_down_unit_recursive "m_per_m"
      [("m_per_m", [⟨"metre", 1, 1, ""⟩, ⟨"metre", -1, 1, ""⟩])]
      = [⟨"metre", 0, 1, ""⟩] := by
    simp [break_down_unit_recursive, breakDownF, bdStep, combineSub, addEntry,
      lookupStr]
  refine ⟨h1, ?_⟩
  rw [h1]
  decide

/-- C4 (amended): zero-exponent entries are removed not by the decomposer
but by `create_expanded_cellml_file` when it emits the expanded unit's
children: every emitted entry has non-zero exponent, and the emitted
expansion of the metre·metre⁻¹ unit is empty (dimensionless). -/
theorem C4_zero_exponent_filtered :
    (∀ broken_down : List UnitTerm,
        ∀ t ∈ emitted_components broken_down, t.exponent ≠ 0)
    ∧ emitted_components (break_down_unit_recursive "m_per_m"
        [("m_per_m", [⟨"metre", 1, 1, ""⟩, ⟨"metre", -1, 1, ""⟩])]) = [] := by
  constructor
  · intro broken_down t ht
    unfold emitted_components at ht
    exact of_decide_eq_true (List.mem_filter.mp ht).2
  · have h1 : break_down_unit_recursive "m_per_m"
        [("m_per_m", [⟨"metre", 1, 1, ""⟩, ⟨"metre", -1, 1, ""⟩])]
        = [⟨"metre", 0, 1, ""⟩] := by
      simp [break_down_unit_recursive, breakDownF, bdStep, combineSub, addEntry,
        lookupStr]
    rw [h1]
    decide

theorem C4_zero_exponent_filtered_witness :
    (⟨"x", 1, 1, ""⟩ : UnitTerm) ∈ emitted_components [⟨"x", 1, 1, ""⟩]
    ∧ (⟨"x", 1, 1, ""⟩ : UnitTerm).exponent ≠ 0
    ∧ emitted_components (break_down_unit_recursive "m_per_m"
        [("m_per_m", [⟨"metre", 1, 1, ""⟩, ⟨"metre", -1, 1, ""⟩])]) = [] :=
  ⟨by decide,
   C4_zero_exponent_filtered.1 [⟨"x", 1, 1, ""⟩] ⟨"x", 1, 1, ""⟩ (by decide),
   C4_zero_exponent_filtered.2⟩

/-- C5: a unit whose definition already consists purely of base-unit terms
(each referenced name absent from the registry; names pairwise distinct, as
in a canonical form) decomposes to exactly its own definition —
decomposition is idempotent on base-only forms. -/
theorem C5_idempotent (unit_name : String) (units_dict : UnitsDict)
    (comps : List UnitTerm)
    (hu : lookupStr units_dict unit_name = some comps)
    (hbase : ∀ c ∈ comps, lookupStr units_dict c.unit = none)
    (hnodup : (comps.map UnitTerm.unit).Nodup) :
    break_down_unit_recursive unit_name units_dict = comps := by
  obtain ⟨k, hk⟩ : ∃ k, units_dict.length = k + 1 := by
    cases units_dict with
    | nil => cases hu
    | cons p rest => exact ⟨rest.length, rfl⟩
  have hleaf : ∀ c ∈ comps,
      breakDownF units_dict.length c.unit units_dict [unit_name]
        = some [⟨c.unit, 1, 1, ""⟩] := by
    intro c hc
    have hcu : c.unit ≠ unit_name := by
      intro h
      have hbc := hbase c hc
      rw [h, hu] at hbc
      exact Option.noConfusion hbc
    rw [hk]
    simp [breakDownF, hcu, hbase c hc]
  have hmain : breakDownF (units_dict.length + 1) unit_name units_dict []
      = some comps := by
    rw [show breakDownF (units_dict.length + 1) unit_name units_dict []
        = comps.foldl
            (bdStep fun n => breakDownF units_dict.length n units_dict [unit_name])
            (some []) by simp [breakDownF, hu]]
    rw [bdFold_pure_base _ comps [] hleaf hnodup (by intro c _ h; cases h)]
    simp
  have h2 := break_down_eq_some unit_name units_dict
  rw [hmain] at h2
  exact (Option.some.inj h2).symm

theorem C5_idempotent_witness :
    lookupStr
        ([("force", [⟨"kilogram", 1, 1, ""⟩, ⟨"metre", 1, 1, ""⟩,
          ⟨"second", -2, 1, ""⟩])] : UnitsDict) "force"
      = some [⟨"kilogram", 1, 1, ""⟩, ⟨"metre", 1, 1, ""⟩, ⟨"second", -2, 1, ""⟩]
    ∧ (∀ c ∈ ([⟨"kilogram", 1, 1, ""⟩, ⟨"metre", 1, 1, ""⟩,
          ⟨"second", -2, 1, ""⟩] : List UnitTerm),
        lookupStr ([("force", [⟨"kilogram", 1, 1, ""⟩,
          ⟨"metre", 1, 1, ""⟩, ⟨"second", -2, 1, ""⟩])] : UnitsDict) c.unit = none)
    ∧ ((([⟨"kilogram", 1, 1, ""⟩, ⟨"metre", 1, 1, ""⟩,
          ⟨"second", -2, 1, ""⟩] : List UnitTerm).map UnitTerm.unit).Nodup)
    ∧ break_down_unit_recursive "force"
        ([("force", [⟨"kilogram", 1, 1, ""⟩, ⟨"metre", 1, 1, ""⟩,
          ⟨"second", -2, 1, ""⟩])] : UnitsDict)
      = [⟨"kilogram", 1, 1, ""⟩, ⟨"metre", 1, 1, ""⟩, ⟨"second", -2, 1, ""⟩] :=
  ⟨by decide, by decide, by decide,
   C5_idempotent "force"
     ([("force", [⟨"kilogram", 1, 1, ""⟩, ⟨"metre", 1, 1, ""⟩,
       ⟨"second", -2, 1, ""⟩])] : UnitsDict)
     [⟨"kilogram", 1, 1, ""⟩, ⟨"metre", 1, 1, ""⟩, ⟨"second", -2, 1, ""⟩]
     (by decide) (by decide) (by decide)⟩

/-- C6: the fuel-indexed decomposition stabilises and succeeds as soon as
the fuel exceeds the number of not-yet-visited registry keys — for every
registry (cyclic definition graphs included) and every starting visited
set, decomposition terminates within steps proportional to the definition
graph's size. -/
theorem C6_terminates (unit_name : String) (units_dict : UnitsDict)
    (visited : List String) (fuel : Nat)
    (h : remainingKeys units_dict visited < fuel) :
    breakDownF fuel unit_name units_dict visited
      = breakDownF (remainingKeys units_dict visited + 1) unit_name units_dict
          visited
    ∧ (breakDownF fuel unit_name units_dict visited).isSome :=
  ⟨breakDownF_stable units_dict unit_name visited (Nat.lt_succ_self _) h,
   breakDownF_isSome units_dict fuel unit_name visited h⟩

theorem C6_terminates_witness :
    remainingKeys
        ([("a", [⟨"b", 1, 1, ""⟩]), ("b", [⟨"a", 2, 1, ""⟩])] : UnitsDict) [] < 4
    ∧ (breakDownF 4 "a"
          ([("a", [⟨"b", 1, 1, ""⟩]), ("b", [⟨"a", 2, 1, ""⟩])] : UnitsDict) []
        = breakDownF
            (remainingKeys
              ([("a", [⟨"b", 1, 1, ""⟩]), ("b", [⟨"a", 2, 1, ""⟩])] : UnitsDict)
              [] + 1)
            "a" ([("a", [⟨"b", 1, 1, ""⟩]), ("b", [⟨"a", 2, 1, ""⟩])] : UnitsDict)
            []
       ∧ (breakDownF 4 "a"
            ([("a", [⟨"b", 1, 1, ""⟩]), ("b", [⟨"a", 2, 1, ""⟩])] : UnitsDict)
            []).isSome) :=
  ⟨by decide,
   C6_terminates "a"
     ([("a", [⟨"b", 1, 1, ""⟩]), ("b", [⟨"a", 2, 1, ""⟩])] : UnitsDict) [] 4
     (by decide)⟩

/-- C7: a variable with no declared unit, or one literally named
"dimensionless", is always classified as mapped, never unmapped: it is
matched either to a baseline entry compatible with the dimensionless unit
(recording that entry's ontology codes from the table) or to the literal
"dimensionless" marker with no ontology codes. -/
theorem C7_dimensionless_mapped {β : Type} (compat : β → β → Bool) (dz : β)
    (modelUnits baseline_units : List (String × β))
    (opb_map : List (String × List String)) (v : ModelVariable)
    (h : v.unitName = none ∨ v.unitName = some "dimensionless") :
    ∃ r : MappingRecord,
      classifyVariable compat dz modelUnits baseline_units opb_map v
        = VarClass.mapped r
      ∧ r.unit = "dimensionless"
      ∧ ((∃ p ∈ baseline_units, compat dz p.2 = true ∧ r.mapped_to = p.1
            ∧ r.opb_code = lookupStr opb_map p.1)
         ∨ (r.mapped_to = "dimensionless" ∧ r.opb_code = none)) := by
  have hn : v.unitName.getD "dimensionless" = "dimensionless" := by
    rcases h with h | h <;> simp [h]
  cases hf : baseline_units.find? (fun bu => compat dz bu.2) with
  | some bu =>
    refine ⟨⟨v.name, "dimensionless", bu.1, lookupStr opb_map bu.1⟩, ?_, rfl, ?_⟩
    · simp [classifyVariable, hn, hf]
    · exact Or.inl ⟨bu, List.mem_of_find?_eq_some hf,
        by simpa using List.find?_some hf, rfl, rfl⟩
  | none =>
    refine ⟨⟨v.name, "dimensionless", "dimensionless", none⟩, ?_, rfl,
      Or.inr ⟨rfl, rfl⟩⟩
    simp [classifyVariable, hn, hf]

theorem C7_dimensionless_mapped_witness :
    ((⟨"v1", none⟩ : ModelVariable).unitName = none
      ∨ (⟨"v1", none⟩ : ModelVariable).unitName = some "dimensionless")
    ∧ ∃ r : MappingRecord,
        classifyVariable (fun _ _ => false : Bool → Bool → Bool) true []
            [("perc", false)] [] ⟨"v1", none⟩
          = VarClass.mapped r
        ∧ r.unit = "dimensionless"
        ∧ ((∃ p ∈ [("perc", (false : Bool))], false = true ∧ r.mapped_to = p.1
              ∧ r.opb_code = lookupStr [] p.1)
           ∨ (r.mapped_to = "dimensionless" ∧ r.opb_code = none)) :=
  ⟨Or.inl rfl,
   C7_dimensionless_mapped (fun _ _ => false : Bool → Bool → Bool) true []
     [("perc", false)] [] ⟨"v1", none⟩ (Or.inl rfl)⟩

/-- C8: a unit name absent from both the model's units and the baseline
(and neither dimensionless nor an SI base name) makes the variable unmapped
with reason "Unit not found"; and whenever the model defines the name,
resolution returns the model-local object, whatever the baseline holds. -/
theorem C8_unit_not_found {β : Type} (compat : β → β → Bool) (dz : β)
    (modelUnits baseline_units : List (String × β))
    (opb_map : List (String × List String)) (v : ModelVariable) (n : String)
    (hn : v.unitName = some n) (hdim : n ≠ "dimensionless")
    (hsi : lookupStr SI_BASE_UNITS_OPB n = none) :
    (lookupStr modelUnits n = none → lookupStr baseline_units n = none →
       classifyVariable compat dz modelUnits baseline_units opb_map v
         = VarClass.unmapped ⟨v.name, n, "Unit not found"⟩)
    ∧ (∀ uo : β, lookupStr modelUnits n = some uo →
        resolveUnitsObj modelUnits baseline_units n = some uo) := by
  constructor
  · intro hm hb
    have hres : resolveUnitsObj modelUnits baseline_units n = none := by
      unfold resolveUnitsObj
      rw [if_neg ((lookupStr_eq_none_iff modelUnits n).mp hm),
        if_neg ((lookupStr_eq_none_iff baseline_units n).mp hb)]
    simp [classifyVariable, hn, hdim, hsi, hres]
  · intro uo huo
    unfold resolveUnitsObj
    rw [if_pos (lookupStr_some_mem huo), huo]

theorem C8_unit_not_found_witness :
    (⟨"v8", some "foo"⟩ : ModelVariable).unitName = some "foo"
    ∧ "foo" ≠ "dimensionless"
    ∧ lookupStr SI_BASE_UNITS_OPB "foo" = none
    ∧ classifyVariable (fun _ _ => false : Bool → Bool → Bool) true
        [("mm", true)] [("bb", false)] [] ⟨"v8", some "foo"⟩
        = VarClass.unmapped ⟨"v8", "foo", "Unit not found"⟩
    ∧ resolveUnitsObj [("foo", true)] [("foo", false)] "foo" = some true :=
  ⟨rfl, by decide, by decide,
   (C8_unit_not_found (fun _ _ => false : Bool → Bool → Bool) true
       [("mm", true)] [("bb", false)] [] ⟨"v8", some "foo"⟩ "foo" rfl
       (by decide) (by decide)).1 (by decide) (by decide),
   (C8_unit_not_found (fun _ _ => false : Bool → Bool → Bool) true
       [("foo", true)] [("foo", false)] [] ⟨"v8", some "foo"⟩ "foo" rfl
       (by decide) (by decide)).2 true (by decide)⟩

theorem find?_first_true {α : Type} (p : α → Bool) :
    ∀ (pre : List α) (a : α) (post : List α),
      (∀ q ∈ pre, p q = false) → p a = true →
      (pre ++ a :: post).find? p = some a := by
  intro pre
  induction pre with
  | nil =>
    intro a post _ ha
    simp [List.find?_cons, ha]
  | cons q qs ih =>
    intro a post hpre ha
    have hq : p q = false := hpre q (List.mem_cons_self _ _)
    simp only [List.cons_append, List.find?_cons, hq]
    exact ih a post (fun q' hq' => hpre q' (List.mem_cons_of_mem _ hq')) ha

/-- C9: for a resolvable, non-dimensionless, non-SI unit, the baseline scan
is first-match-wins in insertion order: a compatible entry preceded only by
incompatible ones is recorded with its name and its ontology-table codes
(possibly empty — still counted as mapped); if no entry is compatible the
variable is unmapped with reason "No compatible baseline unit found". -/
theorem C9_first_match {β : Type} (compat : β → β → Bool) (dz : β)
    (modelUnits baseline_units : List (String × β))
    (opb_map : List (String × List String)) (v : ModelVariable) (n : String)
    (uo : β)
    (hn : v.unitName = some n) (hdim : n ≠ "dimensionless")
    (hsi : lookupStr SI_BASE_UNITS_OPB n = none)
    (hres : resolveUnitsObj modelUnits baseline_units n = some uo) :
    (∀ (pre post : List (String × β)) (bu : String × β),
        baseline_units = pre ++ bu :: post →
        (∀ q ∈ pre, compat uo q.2 = false) →
        compat uo bu.2 = true →
        classifyVariable compat dz modelUnits baseline_units opb_map v
          = VarClass.mapped ⟨v.name, n, bu.1, lookupStr opb_map bu.1⟩)
    ∧ ((∀ q ∈ baseline_units, compat uo q.2 = false) →
        classifyVariable compat dz modelUnits baseline_units opb_map v
          = VarClass.unmapped ⟨v.name, n, "No compatible baseline unit found"⟩) := by
  constructor
  · intro pre post bu hsplit hpre hbu
    have hf : baseline_units.find? (fun q => compat uo q.2) = some bu := by
      rw [hsplit]
      exact find?_first_true _ pre bu post hpre hbu
    simp [classifyVariable, hn, hdim, hsi, hres, hf]
  · intro hall
    have hf : baseline_units.find? (fun q => compat uo q.2) = none :=
      List.find?_eq_none.mpr (fun q hq => by simp [hall q hq])
    simp [classifyVariable, hn, hdim, hsi, hres, hf]

theorem C9_first_match_witness :
    (⟨"v9", some "n"⟩ : ModelVariable).unitName = some "n"
    ∧ "n" ≠ "dimensionless"
    ∧ lookupStr SI_BASE_UNITS_OPB "n" = none
    ∧ resolveUnitsObj [("n", 5)] [("b1", 1), ("b2", 2)] "n" = some 5
    ∧ classifyVariable (fun _ y => decide (y = 2) : Nat → Nat → Bool) 0
        [("n", 5)] [("b1", 1), ("b2", 2)] [("b2", [])] ⟨"v9", some "n"⟩
        = VarClass.mapped ⟨"v9", "n", "b2", some []⟩
    ∧ classifyVariable (fun _ _ => false : Nat → Nat → Bool) 0 [("n", 5)]
        [("b1", 1)] [] ⟨"v9", some "n"⟩
        = VarClass.unmapped ⟨"v9", "n", "No compatible baseline unit found"⟩ :=
  ⟨rfl, by decide, by decide, by decide,
   (C9_first_match (fun _ y => decide (y = 2) : Nat → Nat → Bool) 0 [("n", 5)]
       [("b1", 1), ("b2", 2)] [("b2", [])] ⟨"v9", some "n"⟩ "n" 5 rfl
       (by decide) (by decide) (by decide)).1
     [("b1", 1)] [] ("b2", 2) rfl (by decide) (by decide),
   (C9_first_match (fun _ _ => false : Nat → Nat → Bool) 0 [("n", 5)]
       [("b1", 1)] [] ⟨"v9", some "n"⟩ "n" 5 rfl (by decide) (by decide)
       (by decide)).2 (by decide)⟩

theorem stepVariable_counts {β : Type} (compat : β → β → Bool) (dz : β)
    (modelUnits baseline_units : List (String × β))
    (opb_map : List (String × List String)) (st : MapResult) (v : ModelVariable)
    (h1 : st.mapped = st.mapping_details.length)
    (h2 : st.total = st.mapping_details.length + st.unmapped_details.length) :
    (stepVariable compat dz modelUnits baseline_units opb_map st v).mapped
      = (stepVariable compat dz modelUnits baseline_units opb_map st v).mapping_details.length
    ∧ (stepVariable compat dz modelUnits baseline_units opb_map st v).total
      = (stepVariable compat dz modelUnits baseline_units opb_map st v).mapping_details.length
        + (stepVariable compat dz modelUnits baseline_units opb_map st v).unmapped_details.length
    ∧ (stepVariable compat dz modelUnits baseline_units opb_map st v).total
      = st.total + 1 := by
  cases hc : classifyVariable compat dz modelUnits baseline_units opb_map v with
  | mapped r =>
    refine ⟨?_, ?_, ?_⟩
    · simp [stepVariable, hc, h1]
    · simp [stepVariable, hc, h2]
      omega
    · simp [stepVariable, hc]
  | unmapped r =>
    refine ⟨?_, ?_, ?_⟩
    · simp [stepVariable, hc, h1]
    · simp [stepVariable, hc, h2]
      omega
    · simp [stepVariable, hc]

theorem foldVars_counts {β : Type} (compat : β → β → Bool) (dz : β)
    (modelUnits baseline_units : List (String × β))
    (opb_map : List (String × List String)) :
    ∀ (vars : List ModelVariable) (st : MapResult),
      st.mapped = st.mapping_details.length →
      st.total = st.mapping_details.length + st.unmapped_details.length →
      ((vars.foldl (stepVariable compat dz modelUnits baseline_units opb_map)
          st).mapped
        = (vars.foldl (stepVariable compat dz modelUnits baseline_units opb_map)
            st).mapping_details.length
      ∧ (vars.foldl (stepVariable compat dz modelUnits baseline_units opb_map)
            st).total
        = (vars.foldl (stepVariable compat dz modelUnits baseline_units opb_map)
              st).mapping_details.length
          + (vars.foldl (stepVariable compat dz modelUnits baseline_units opb_map)
              st).unmapped_details.length
      ∧ (vars.foldl (stepVariable compat dz modelUnits baseline_units opb_map)
            st).total
        = st.total + vars.length) := by
  intro vars
  induction vars with
  | nil =>
    intro st h1 h2
    exact ⟨h1, h2, rfl⟩
  | cons v vs ih =>
    intro st h1 h2
    obtain ⟨g1, g2, g3⟩ := stepVariable_counts compat dz modelUnits baseline_units
      opb_map st v h1 h2
    obtain ⟨r1, r2, r3⟩ := ih
      (stepVariable compat dz modelUnits baseline_units opb_map st v) g1 g2
    refine ⟨by simpa using r1, by simpa using r2, ?_⟩
    simp only [List.foldl_cons, List.length_cons]
    rw [r3, g3]
    omega

theorem foldComps_counts {β : Type} (compat : β → β → Bool) (dz : β)
    (modelUnits baseline_units : List (String × β))
    (opb_map : List (String × List String)) :
    ∀ (components : List (List ModelVariable)) (st : MapResult),
      st.mapped = st.mapping_details.length →
      st.total = st.mapping_details.length + st.unmapped_details.length →
      ((components.foldl
          (fun s comp =>
            comp.foldl (stepVariable compat dz modelUnits baseline_units opb_map) s)
          st).mapped
        = (components.foldl
            (fun s comp =>
              comp.foldl (stepVariable compat dz modelUnits baseline_units opb_map) s)
            st).mapping_details.length
      ∧ (components.foldl
            (fun s comp =>
              comp.foldl (stepVariable compat dz modelUnits baseline_units opb_map) s)
            st).total
        = (components.foldl
              (fun s comp =>
                comp.foldl (stepVariable compat dz modelUnits baseline_units opb_map) s)
              st).mapping_details.length
          + (components.foldl
              (fun s comp =>
                comp.foldl (stepVariable compat dz modelUnits baseline_units opb_map) s)
              st).unmapped_details.length
      ∧ (components.foldl
            (fun s comp =>
              comp.foldl (stepVariable compat dz modelUnits baseline_units opb_map) s)
            st).total
        = st.total + (components.map List.length).sum) := by
  intro components
  induction components with
  | nil =>
    intro st h1 h2
    exact ⟨h1, h2, by simp⟩
  | cons comp comps ih =>
    intro st h1 h2
    obtain ⟨g1, g2, g3⟩ := foldVars_counts compat dz modelUnits baseline_units
      opb_map comp st h1 h2
    obtain ⟨r1, r2, r3⟩ := ih
      (comp.foldl (stepVariable compat dz modelUnits baseline_units opb_map) st)
      g1 g2
    refine ⟨by simpa using r1, by simpa using r2, ?_⟩
    simp only [List.foldl_cons, List.map_cons, List.sum_cons]
    rw [r3, g3]
    omega

/-- C10: for every processed model, the returned `mapped` counter equals the
number of records in `mapping_details`, the `total` counter equals the two
detail lists' combined length, and `total` equals the number of variables
offered: every variable contributes exactly one record to exactly one of
the two lists — none dropped, none double-recorded. -/
theorem C10_counters_match_records {β : Type} (compat : β → β → Bool) (dz : β)
    (components : List (List ModelVariable))
    (modelUnits baseline_units : List (String × β))
    (opb_map : List (String × List String)) :
    (map_variable_units_to_opb compat dz components modelUnits baseline_units
        opb_map).mapped
      = (map_variable_units_to_opb compat dz components modelUnits baseline_units
          opb_map).mapping_details.length
    ∧ (map_variable_units_to_opb compat dz components modelUnits baseline_units
          opb_map).total
      = (map_variable_units_to_opb compat dz components modelUnits baseline_units
            opb_map).mapping_details.length
        + (map_variable_units_to_opb compat dz components modelUnits baseline_units
            opb_map).unmapped_details.length
    ∧ (map_variable_units_to_opb compat dz components modelUnits baseline_units
          opb_map).total
      = (components.map List.length).sum := by
  obtain ⟨h1, h2, h3⟩ := foldComps_counts compat dz modelUnits baseline_units
    opb_map components ⟨0, 0, [], []⟩ rfl rfl
  exact ⟨h1, h2, by simpa [map_variable_units_to_opb] using h3⟩
